import Mathlib

/-!
Verification development for the FacePay knowledge converters:
`src/knowledge/convert_to_apa_pdf.py` (HTML/CSS variant) and
`src/knowledge/convert_to_apa_pdf_simple.py` (direct-layout variant).

Text is modelled as `List Char`.  The Python string primitives used by the
two scripts (`startswith`, `in`, `split`, `replace`, `strip`, slicing) are
given executable embeddings below; the two pipelines are then embedded
function by function.  The direct-layout renderer is modelled as the
sequence of text-drawing calls it makes (each `cell` / `multi_cell` /
`write` carrying document content becomes a `Block`); spacing, font and
page-break calls carry no text and are not part of the model.
-/

/-! ## Python string primitives -/

/-- Characters stripped by Python `str.strip()` (ASCII whitespace). -/
def isSpaceC (c : Char) : Bool :=
  c == (' ') || c == ('\t') || c == ('\n') || c == ('\r') || c == ('\x0b') || c == ('\x0c')

/-- Python `str.strip()`: drop whitespace from both ends. -/
def trimL (s : List Char) : List Char :=
  ((s.dropWhile isSpaceC).reverse.dropWhile isSpaceC).reverse

/-- Python `str.startswith(pat)`. -/
def strStarts : List Char → List Char → Bool
  | _, [] => true
  | [], _ :: _ => false
  | c :: s, p :: ps => c == p && strStarts s ps

/-- Remove `pat` from the front of `s`, if it is a prefix. -/
def stripPfx : List Char → List Char → Option (List Char)
  | s, [] => some s
  | [], _ :: _ => none
  | c :: s, p :: ps => if c == p then stripPfx s ps else none

/-- Python `pat in s` (substring test). -/
def hasSub : List Char → List Char → Bool
  | [], pat => strStarts [] pat
  | c :: t, pat => strStarts (c :: t) pat || hasSub t pat

/-- Fuelled worker for Python `str.replace` (left-to-right, non-overlapping).
The fuel is always instantiated with the length of the subject string. -/
def replAux (o : Char) (os new : List Char) : Nat → List Char → List Char
  | _, [] => []
  | 0, s => s
  | n + 1, c :: t =>
    if c == o then
      match stripPfx t os with
      | some rest => new ++ replAux o os new n rest
      | none => c :: replAux o os new n t
    else c :: replAux o os new n t

/-- Python `s.replace(pat, new)`; `pat` is never empty at the call sites. -/
def pyReplace (s pat new : List Char) : List Char :=
  match pat with
  | [] => s
  | o :: os => replAux o os new s.length s

/-- Prepend a character onto the first group of a split result. -/
def consHead (c : Char) : List (List Char) → List (List Char)
  | [] => [[c]]
  | h :: t => (c :: h) :: t

/-- Fuelled worker for Python `str.split(sep)` with non-empty separator. -/
def splitAux (o : Char) (os : List Char) : Nat → List Char → List (List Char)
  | _, [] => [[]]
  | 0, s => [s]
  | n + 1, c :: t =>
    if c == o then
      match stripPfx t os with
      | some rest => [] :: splitAux o os n rest
      | none => consHead c (splitAux o os n t)
    else consHead c (splitAux o os n t)

/-- Python `s.split(sep)`; `sep` is never empty at the call sites. -/
def pySplit (s pat : List Char) : List (List Char) :=
  match pat with
  | [] => [s]
  | o :: os => splitAux o os s.length s

/-- Concatenation of the images of a character map (used to characterise
single-character replacements). -/
def catMap (f : Char → List Char) : List Char → List Char
  | [] => []
  | c :: t => f c ++ catMap f t

/-- The image of one character under a single-character replacement. -/
def charSub (o : Char) (new : List Char) (c : Char) : List Char :=
  if c == o then new else [c]

/-- Fuelled worker for the chunking comprehension
`[text[i:i+180] for i in range(0, len(text), 180)]`. -/
def chunksAux : Nat → List Char → List (List Char)
  | _, [] => []
  | 0, _ => []
  | n + 1, c :: t => (c :: t).take 180 :: chunksAux n ((c :: t).drop 180)

/-- The 180-character chunks of a string, in order. -/
def chunks180 (s : List Char) : List (List Char) :=
  chunksAux s.length s

/-- Concatenation of a list of strings (used to state chunking round-trips). -/
def concatAll : List (List Char) → List Char
  | [] => []
  | l :: ls => l ++ concatAll ls

/-- A sequence of `str.replace` passes applied left to right
(models both the `clean_text` replacement dict loop and the chained
emoji `replace` calls of the HTML variant). -/
def applyReplaces (rs : List (List Char × List Char)) (s : List Char) : List Char :=
  rs.foldl (fun acc p => pyReplace acc p.1 p.2) s

/-! ## Shared constants (labels, markers, prefixes) -/

def h1pre : List Char := ("# ").data
def hh2 : List Char := ("## ").data
def hh3 : List Char := ("### ").data
def hh4 : List Char := ("#### ").data
def lblEst : List Char := ("**Estudiante:**").data
def lblClaveAcc : List Char := ("**Clave Única:**").data
def lblClaveUn : List Char := ("**Clave Unica:**").data
def lblMateria : List Char := ("**Materia:**").data
def lblFecha : List Char := ("**Fecha:**").data
def marker1 : List Char := ("## 🎯 Objetivo").data
def marker2 : List Char := ("## Objetivo").data
def fenceP : List Char := ("```").data
def pipeP : List Char := ("|").data
def dashP : List Char := ("---").data
def star2P : List Char := ("**").data
def dash1P : List Char := ("-").data
def star1P : List Char := ("*").data
def gt1P : List Char := (">").data
def indent4 : List Char := ("    ").data
def nlP : List Char := [('\n')]

/-! ## Metadata record (both variants) -/

/-- The metadata dict of `process_document` / the five locals of
`process_markdown_for_apa`. -/
structure Metadata where
  title : List Char
  author : List Char
  student_id : List Char
  course : List Char
  date : List Char
  deriving DecidableEq

/-- All fields start as the empty string. -/
def mdefault : Metadata := ⟨[], [], [], [], []⟩

/-! ## Direct-layout variant: `convert_to_apa_pdf_simple.py` -/

/-- The `clean_text` replacement dict, in source order. -/
def cleanPairs : List (List Char × List Char) :=
  [ (("Σ").data, ("Sigma").data)
  , (("α").data, ("alpha").data)
  , (("β").data, ("beta").data)
  , (("γ").data, ("gamma").data)
  , (("Δ").data, ("Delta").data)
  , (("∈").data, ("en").data)
  , (("∪").data, ("U").data)
  , (("→").data, ("->").data)
  , (("≤").data, ("<=").data)
  , (("≥").data, (">=").data)
  , (("∞").data, ("infinito").data)
  , (("√").data, ("raiz").data)
  , (("×").data, ("x").data)
  , (("÷").data, ("/").data)
  , (("≠").data, ("!=").data)
  , (("≈").data, ("~").data)
  , (("á").data, ("a").data)
  , (("é").data, ("e").data)
  , (("í").data, ("i").data)
  , (("ó").data, ("o").data)
  , (("ú").data, ("u").data)
  , (("ñ").data, ("n").data)
  , (("Á").data, ("A").data)
  , (("É").data, ("E").data)
  , (("Í").data, ("I").data)
  , (("Ó").data, ("O").data)
  , (("Ú").data, ("U").data)
  , (("Ñ").data, ("N").data) ]

/-- `clean_text`: apply every replacement of the dict, in order. -/
def cleanText (s : List Char) : List Char := applyReplaces cleanPairs s

/-- One step of the metadata scan of `process_document` (the if/elif chain). -/
def updateMetaSimple (m : Metadata) (line : List Char) : Metadata :=
  if strStarts line h1pre then { m with title := trimL (pyReplace line h1pre []) }
  else if hasSub line lblEst then { m with author := trimL ((pySplit line lblEst).getD 1 []) }
  else if hasSub line lblClaveUn then { m with student_id := trimL ((pySplit line lblClaveUn).getD 1 []) }
  else if hasSub line lblMateria then { m with course := trimL ((pySplit line lblMateria).getD 1 []) }
  else if hasSub line lblFecha then { m with date := trimL ((pySplit line lblFecha).getD 1 []) }
  else m

/-- `process_document` metadata scan: only the first 10 lines are read. -/
def extractMetaSimple (lines : List (List Char)) : Metadata :=
  (lines.take 10).foldl updateMetaSimple mdefault

/-- `process_document`: clean the whole file, split into lines, scan metadata. -/
def processDocument (content : List Char) : Metadata × List (List Char) :=
  let cc := cleanText content
  let lines := pySplit cc nlP
  (extractMetaSimple lines, lines)

/-- The character class of `re.sub(r'[🎯📚🐍🔍📊🛠️🔬🔄📝🔗💭✅❌]', '', line)`.
`🛠️` is an emoji followed by a variation selector, hence two members. -/
def reEmojiChars : List Char :=
  [('🎯'), ('📚'), ('🐍'), ('🔍'), ('📊'), ('🛠'), ('️'), ('🔬'), ('🔄'), ('📝'), ('🔗'), ('💭'), ('✅'), ('❌')]

/-- The per-line `re.sub` deletion of the direct-layout variant. -/
def stripEmojiRe (line : List Char) : List Char :=
  line.filter (fun c => !(reEmojiChars.contains c))

/-- A text-drawing call of the direct-layout renderer. -/
inductive Block where
  | heading : Nat → List Char → Block
  | codeBlock : List (List Char) → Block
  | tableRow : List (List Char) → Block
  | spans : List (Bool × List Char) → Block
  | text : List Char → Block
  deriving DecidableEq

/-- Recognise a table-row block. -/
def isTableRowBlock : Block → Bool
  | Block.tableRow _ => true
  | _ => false

/-- Extract the emitted code blocks of a block sequence. -/
def codeBlocksOf (bs : List Block) : List (List (List Char)) :=
  bs.filterMap (fun b => match b with | Block.codeBlock ls => some ls | _ => none)

/-- The mutable flags and buffers of the `create_apa_pdf` content loop. -/
structure LoopState where
  skip_header : Bool
  in_code_block : Bool
  code_buffer : List (List Char)
  in_table : Bool
  table_data : List (List Char)
  deriving DecidableEq

/-- Loop state at entry of the content loop. -/
def initState : LoopState := ⟨true, false, [], false, []⟩

/-- One buffered table row rendered to cells:
`row.split("|")[1:-1]`, each stripped, first 3 kept, each cut to 20 chars. -/
def rowCellsBlock (row : List Char) : Block :=
  Block.tableRow (((((pySplit row pipeP).drop 1).dropLast).map trimL).take 3 |>.map (fun c => c.take 20))

/-- Emission of the accumulated `table_data` (at most 5 rows are drawn). -/
def flushTable (td : List (List Char)) : List Block :=
  if td.isEmpty then [] else (td.take 5).map rowCellsBlock

/-- Inline `**bold**` rendering: split on the delimiter, draw the non-empty
parts, odd-indexed parts in bold. -/
def inlineSpans (text : List Char) : List (Bool × List Char) :=
  ((pySplit text star2P).enum.filter (fun p => !p.2.isEmpty)).map (fun p => (p.1 % 2 == 1, p.2))

/-- The plain-paragraph branch: inline bold, else indent non-list lines and
chunk texts longer than 200 characters into 180-character pieces, skipping
all-whitespace chunks. -/
def paraBlocks (line : List Char) : List Block :=
  if hasSub line star2P then [Block.spans (inlineSpans line)]
  else
    let text := if !(strStarts line dash1P) && !(strStarts line star1P) && !(strStarts line gt1P)
                then indent4 ++ line else line
    if text.length > 200 then
      ((chunks180 text).filter (fun c => !(trimL c).isEmpty)).map Block.text
    else [Block.text text]

/-- Heading / rule / paragraph classification of one (already glyph-stripped)
line, as in the tail of the content loop. -/
def lineBlocks (line : List Char) : List Block :=
  if strStarts line hh2 then [Block.heading 1 (trimL (line.drop 3))]
  else if strStarts line hh3 then [Block.heading 2 (trimL (line.drop 4))]
  else if strStarts line hh4 then [Block.heading 3 (trimL (line.drop 5))]
  else if strStarts line dashP then []
  else if !(trimL line).isEmpty then paraBlocks line
  else []

/-- The body of the content loop for one line, after the skip-header check:
emoji deletion, fence toggling, code buffering, table buffering and flushing,
then heading/paragraph rendering. -/
def stepBody (st : LoopState) (rawLine : List Char) : LoopState × List Block :=
  let line := stripEmojiRe rawLine
  if strStarts (trimL line) fenceP then
    if st.in_code_block then
      ({ st with code_buffer := [], in_code_block := false },
        if st.code_buffer.isEmpty then []
        else [Block.codeBlock (st.code_buffer.map (fun l => l.take 70))])
    else ({ st with in_code_block := true }, [])
  else if st.in_code_block then
    ({ st with code_buffer := st.code_buffer ++ [line] }, [])
  else if hasSub line pipeP && hasSub line dashP then
    ({ st with in_table := true }, [])
  else if st.in_table && hasSub line pipeP then
    ({ st with table_data := st.table_data ++ [line] }, [])
  else if st.in_table && !(hasSub line pipeP) then
    ({ st with in_table := false, table_data := [] }, flushTable st.table_data ++ lineBlocks line)
  else (st, lineBlocks line)

/-- One full iteration of the content loop, including the skip-header logic:
lines before the objective marker are dropped; the marker line itself falls
through into the body. -/
def stepLine (st : LoopState) (line : List Char) : LoopState × List Block :=
  if st.skip_header then
    if hasSub line marker1 || hasSub line marker2 then
      stepBody { st with skip_header := false } line
    else (st, [])
  else stepBody st line

/-- The whole content loop over the document lines. -/
def runLoop (st : LoopState) : List (List Char) → List Block
  | [] => []
  | l :: ls =>
    let p := stepLine st l
    p.2 ++ runLoop p.1 ls

/-- The literal `referencias` list (empty strings are spacing only). -/
def referencias : List (List Char) :=
  [ ("Chomsky, N. (1959). On certain formal properties of grammars. Information and Control, 2(2), 137-167.").data
  , []
  , ("Hopcroft, J. E., & Ullman, J. D. (1979). Introduction to automata theory, languages, and computation. Addison-Wesley.").data
  , []
  , ("Python Software Foundation. (2024). The Python Language Reference. https://docs.python.org/3/reference/").data
  , []
  , ("Sipser, M. (2013). Introduction to the theory of computation (3ra ed.). Cengage Learning.").data
  , []
  , ("Van Rossum, G., & Drake, F. L. (2021). Python Language Reference Manual (PEP 617). Python Software Foundation.").data ]

/-- The unconditional final references section of `create_apa_pdf`. -/
def refsBlocks : List Block :=
  Block.heading 1 (("Referencias").data) :: (referencias.filter (fun r => !r.isEmpty)).map Block.text

/-- The title-page drawing calls of `create_apa_pdf`. -/
def titleBlocks (m : Metadata) : List Block :=
  [ Block.text (trimL (pyReplace (pyReplace m.title (("🎯").data) []) (("📚").data) []))
  , Block.text m.author
  , Block.text ((("Clave Unica: ").data) ++ m.student_id)
  , Block.text (("Universidad Nacional Autonoma de Mexico").data)
  , Block.text (pyReplace m.course (("COM-11113 ").data) (("COM-11113\n").data))
  , Block.text m.date ]

/-- The abstract text drawn by the direct-layout variant. -/
def abstractSimple : List Char :=
  ("Este trabajo de investigacion analiza la gramatica del lenguaje de programacion Python para determinar su clasificacion dentro de la jerarquia de Chomsky. Se examina especificamente si Python es un lenguaje libre de contexto o sensible al contexto, con enfoque particular en el rol de la indentacion significativa. A traves del analisis teorico y practico, se demuestra que Python requiere una gramatica sensible al contexto (Tipo 1 en la jerarquia de Chomsky) debido a su sistema de indentacion, lo cual tiene implicaciones importantes para el diseno de compiladores y la complejidad computacional del analisis sintactico.").data

/-- The abstract-page drawing calls of `create_apa_pdf`. -/
def abstractBlocks : List Block :=
  [ Block.text (("Resumen").data)
  , Block.text abstractSimple
  , Block.text (("Palabras clave: ").data)
  , Block.text (("Python, gramatica sensible al contexto, jerarquia de Chomsky, indentacion, analisis sintactico").data) ]

/-- `create_apa_pdf` as the sequence of text-drawing calls it makes:
title page, abstract page, content loop, references section. -/
def createApaPdfBlocks (content : List Char) : List Block :=
  let md := processDocument content
  titleBlocks md.1 ++ abstractBlocks ++ runLoop initState md.2 ++ refsBlocks

/-! ## HTML/CSS variant: `convert_to_apa_pdf.py` -/

/-- One step of the metadata scan of `process_markdown_for_apa`
(accented label, all lines scanned). -/
def updateMetaHtml (m : Metadata) (line : List Char) : Metadata :=
  if strStarts line h1pre then { m with title := trimL (pyReplace line h1pre []) }
  else if hasSub line lblEst then { m with author := trimL ((pySplit line lblEst).getD 1 []) }
  else if hasSub line lblClaveAcc then { m with student_id := trimL ((pySplit line lblClaveAcc).getD 1 []) }
  else if hasSub line lblMateria then { m with course := trimL ((pySplit line lblMateria).getD 1 []) }
  else if hasSub line lblFecha then { m with date := trimL ((pySplit line lblFecha).getD 1 []) }
  else m

/-- The metadata scan of the HTML variant (over every line). -/
def extractMetaHtml (lines : List (List Char)) : Metadata :=
  lines.foldl updateMetaHtml mdefault

/-- The chained emoji `replace` calls of the HTML variant, in source order.
All patterns are single characters except `🛠️` (emoji + variation selector). -/
def htmlEmojiPairs : List (List Char × List Char) :=
  [ ([('🎯')], [])
  , ([('📚')], [])
  , ([('🐍')], [])
  , ([('🔍')], [])
  , ([('📊')], [])
  , ([('🛠'), ('️')], [])
  , ([('🔬')], [])
  , ([('🔄')], [])
  , ([('📝')], [])
  , ([('🔗')], [])
  , ([('💭')], [])
  , ([('✅')], [('['), ('S'), ('í'), (']')])
  , ([('❌')], [('['), ('N'), ('o'), (']')]) ]

/-- The per-line glyph conversion of the HTML variant. -/
def htmlStripEmojis (line : List Char) : List Char := applyReplaces htmlEmojiPairs line

/-- Heading-level remapping of the HTML variant
(`##`→`#`, `###`→`##`, `####`→`###`, all other lines unchanged). -/
def remapHeading (line : List Char) : List Char :=
  if strStarts line hh2 then h1pre ++ line.drop 3
  else if strStarts line hh3 then hh2 ++ line.drop 4
  else if strStarts line hh4 then hh3 ++ line.drop 5
  else line

/-- Per-line body processing of the HTML variant: glyph conversion, then
heading remapping. -/
def procHtml (line : List Char) : List Char := remapHeading (htmlStripEmojis line)

/-- The skip-until-marker fold of the HTML variant; the marker line itself is
processed and kept. -/
def bodyGoHtml : Bool → List (List Char) → List (List Char)
  | _, [] => []
  | true, l :: ls => if strStarts l marker1 then procHtml l :: bodyGoHtml false ls else bodyGoHtml true ls
  | false, l :: ls => procHtml l :: bodyGoHtml false ls

/-- Segments of the `apa_content` f-string (title page + abstract preamble). -/
def preA : List Char :=
  ("\n<div class=\"title-page\">\n    <div class=\"running-head\">LA GRAMÁTICA DE PYTHON</div>\n    <div class=\"main-title\">").data

def preB : List Char :=
  ("</div>\n    <div class=\"author-info\">\n        <p class=\"author\">").data

def preC : List Char :=
  ("</p>\n        <p class=\"student-id\">Clave Única: ").data

def preD : List Char :=
  ("</p>\n        <p class=\"institution\">Universidad Nacional Autónoma de México</p>\n        <p class=\"course\">").data

def preE : List Char :=
  ("</p>\n        <p class=\"date\">").data

/-- The abstract paragraph of the HTML preamble. -/
def abstractHtml : List Char :=
  ("Este trabajo de investigación analiza la gramática del lenguaje de programación Python para determinar su clasificación dentro de la jerarquía de Chomsky. Se examina específicamente si Python es un lenguaje libre de contexto o sensible al contexto, con enfoque particular en el rol de la indentación significativa. A través del análisis teórico y práctico, se demuestra que Python requiere una gramática sensible al contexto (Tipo 1 en la jerarquía de Chomsky) debido a su sistema de indentación, lo cual tiene implicaciones importantes para el diseño de compiladores y la complejidad computacional del análisis sintáctico.").data

def preF : List Char :=
  ("</p>\n    </div>\n</div>\n\n<div class=\"page-break\"></div>\n\n<div class=\"abstract\">\n    <h2>Resumen</h2>\n    <p>").data
  ++ abstractHtml ++
  ("</p>\n    <p><strong>Palabras clave:</strong> Python, gramática sensible al contexto, jerarquía de Chomsky, indentación, análisis sintáctico</p>\n</div>\n\n<div class=\"page-break\"></div>\n").data

/-- The `apa_content` f-string with the metadata interpolated. -/
def apaPreamble (m : Metadata) : List Char :=
  preA ++ m.title ++ preB ++ m.author ++ preC ++ m.student_id ++ preD ++ m.course ++ preE ++ m.date ++ preF

/-- `process_markdown_for_apa`: preamble plus the processed body joined by
newlines. -/
def processMarkdownForApa (content : List Char) : List Char :=
  let lines := pySplit content nlP
  let m := extractMetaHtml lines
  apaPreamble m ++ List.intercalate nlP (bodyGoHtml true lines)

/-- The static part of the `full_html` wrapper before the rendered content. -/
def htmlWrapPre : List Char :=
  ("\n    <!DOCTYPE html>\n    <html>\n    <head>\n        <meta charset=\"UTF-8\">\n        <title>La Gramática de Python y las Gramáticas Sensibles al Contexto</title>\n    </head>\n    <body>\n        ").data

/-- The static part of the `full_html` wrapper after the rendered content. -/
def htmlWrapPost : List Char :=
  ("\n    </body>\n    </html>\n    ").data

/-! ## Field view of the metadata scans (for the duplicate-label analysis) -/

/-- Names of the five metadata fields. -/
inductive Fld where
  | title | author | student_id | course | date
  deriving DecidableEq

/-- Read one field. -/
def readFld : Fld → Metadata → List Char
  | Fld.title, m => m.title
  | Fld.author, m => m.author
  | Fld.student_id, m => m.student_id
  | Fld.course, m => m.course
  | Fld.date, m => m.date

/-- Overwrite one field. -/
def writeFld : Fld → List Char → Metadata → Metadata
  | Fld.title, v, m => { m with title := v }
  | Fld.author, v, m => { m with author := v }
  | Fld.student_id, v, m => { m with student_id := v }
  | Fld.course, v, m => { m with course := v }
  | Fld.date, v, m => { m with date := v }

/-- Which field (and value) a line sets in the HTML variant, if any. -/
def classifyHtml (line : List Char) : Option (Fld × List Char) :=
  if strStarts line h1pre then some (Fld.title, trimL (pyReplace line h1pre []))
  else if hasSub line lblEst then some (Fld.author, trimL ((pySplit line lblEst).getD 1 []))
  else if hasSub line lblClaveAcc then some (Fld.student_id, trimL ((pySplit line lblClaveAcc).getD 1 []))
  else if hasSub line lblMateria then some (Fld.course, trimL ((pySplit line lblMateria).getD 1 []))
  else if hasSub line lblFecha then some (Fld.date, trimL ((pySplit line lblFecha).getD 1 []))
  else none

/-- Which field (and value) a line sets in the direct-layout variant, if any. -/
def classifySimple (line : List Char) : Option (Fld × List Char) :=
  if strStarts line h1pre then some (Fld.title, trimL (pyReplace line h1pre []))
  else if hasSub line lblEst then some (Fld.author, trimL ((pySplit line lblEst).getD 1 []))
  else if hasSub line lblClaveUn then some (Fld.student_id, trimL ((pySplit line lblClaveUn).getD 1 []))
  else if hasSub line lblMateria then some (Fld.course, trimL ((pySplit line lblMateria).getD 1 []))
  else if hasSub line lblFecha then some (Fld.date, trimL ((pySplit line lblFecha).getD 1 []))
  else none

/-- A metadata update induced by a classification. -/
def updOf (cls : List Char → Option (Fld × List Char)) (m : Metadata) (line : List Char) : Metadata :=
  match cls line with
  | some p => writeFld p.1 p.2 m
  | none => m

/-- Per-character substitution performed by the HTML glyph conversion on
lines free of the two-character tool glyph. -/
def glyphSubHtml (c : Char) : List Char :=
  if c == ('🎯') || c == ('📚') || c == ('🐍') || c == ('🔍') || c == ('📊') || c == ('🔬')
     || c == ('🔄') || c == ('📝') || c == ('🔗') || c == ('💭') then []
  else if c == ('✅') then [('['), ('S'), ('í'), (']')]
  else if c == ('❌') then [('['), ('N'), ('o'), (']')]
  else [c]

/-- Loop-state predicate used by the heading analysis: past the skip marker,
outside code blocks, outside tables. -/
def stOK (st : LoopState) : Prop :=
  st.skip_header = false ∧ st.in_code_block = false ∧ st.in_table = false

/-- A line (after glyph deletion) that does not trigger table detection. -/
def ntab (l : List Char) : Prop :=
  (hasSub (stripEmojiRe l) pipeP && hasSub (stripEmojiRe l) dashP) = false

/-! ## Concrete documents used in the analysis -/

def demoC1 : List Char := ("**Estudiante:** Ana\n**Estudiante:** Beto").data

def demoC2Lines : List (List Char) :=
  [marker2, fenceP, List.replicate 80 ('a'), fenceP]

def demoC3Lines : List (List Char) :=
  [marker2, ("| h |").data, ("|---|").data,
   ("| x1 |").data, ("| x2 |").data, ("| x3 |").data,
   ("| x4 |").data, ("| x5 |").data, ("| x6 |").data, ("fin").data]

def demoC4Line : List Char := ("a **b").data

/-- A loop state already past the skip marker, in the default mode. -/
def stReady : LoopState := ⟨false, false, [], false, []⟩

def demoC5Line : List Char := ("x ✅ y").data

def demoC6 : List Char := ("# T\n## 🎯 Objetivo\nHola").data

/-- The probe for a bibliographic entry: the head of the first `referencias`
entry. -/
def refChomsky : List Char := ("Chomsky, N. (1959)").data

def demoC9Line : List Char :=
  ('-') :: (List.replicate 179 ('a') ++ List.replicate 180 (' ') ++ [('b')])

/-! ## Lemmas about the Python string primitives -/

theorem stripPfx_length : ∀ (p s r : List Char), stripPfx s p = some r → r.length ≤ s.length := by
  intro p
  induction p with
  | nil => intro s r h; simp [stripPfx] at h; simp [h]
  | cons a p ih =>
    intro s r h
    cases s with
    | nil => simp [stripPfx] at h
    | cons c t =>
      simp only [stripPfx] at h
      split at h
      · exact Nat.le_succ_of_le (ih t r h)
      · exact absurd h (by simp)

theorem strStarts_eq_isSome : ∀ (p s : List Char), strStarts s p = (stripPfx s p).isSome := by
  intro p
  induction p with
  | nil => intro s; cases s <;> rfl
  | cons a p ih =>
    intro s
    cases s with
    | nil => rfl
    | cons c t =>
      simp only [strStarts, stripPfx]
      by_cases h : c == a
      · simp [h, ih t]
      · simp [h]

theorem strStarts_shape : ∀ (p s : List Char), strStarts s p = true → ∃ r, s = p ++ r := by
  intro p
  induction p with
  | nil => intro s _; exact ⟨s, rfl⟩
  | cons a p ih =>
    intro s h
    cases s with
    | nil => simp [strStarts] at h
    | cons c t =>
      simp only [strStarts, Bool.and_eq_true, beq_iff_eq] at h
      obtain ⟨r, hr⟩ := ih t h.2
      exact ⟨r, by simp [h.1, hr]⟩

theorem stripPfx_append_self : ∀ (p r : List Char), stripPfx (p ++ r) p = some r := by
  intro p
  induction p with
  | nil => intro r; simp [stripPfx]
  | cons a p ih => intro r; simp [stripPfx, ih r]

theorem strStarts_append_self (p r : List Char) : strStarts (p ++ r) p = true := by
  rw [strStarts_eq_isSome, stripPfx_append_self]; rfl

theorem hasSub_of_append (p r : List Char) : hasSub (p ++ r) p = true := by
  cases hpr : p ++ r with
  | nil =>
    have hp : p = [] := by cases p <;> simp_all
    subst hp; simp [hasSub, strStarts]
  | cons c t =>
    have := strStarts_append_self p r
    rw [hpr] at this
    simp [hasSub, this]

theorem hasSub_false_of_all_ne (o : Char) (os : List Char) :
    ∀ (s : List Char), (∀ a ∈ s, ¬ a = o) → hasSub s (o :: os) = false := by
  intro s
  induction s with
  | nil => intro _; rfl
  | cons c t ih =>
    intro h
    have hc : ¬ c = o := h c (by simp)
    simp only [hasSub, strStarts, Bool.or_eq_false_iff, Bool.and_eq_false_iff]
    constructor
    · left; simp [hc]
    · exact ih (fun a ha => h a (by simp [ha]))

theorem hasSub_cons_elim (c o : Char) (t os : List Char) (h : hasSub (c :: t) (o :: os) = false) :
    strStarts (c :: t) (o :: os) = false ∧ hasSub t (o :: os) = false := by
  simpa [hasSub] using h

/-! ## Lemmas about replace and split -/

theorem pyReplace_nil (pat new : List Char) : pyReplace [] pat new = [] := by
  cases pat <;> rfl

theorem pyReplace_cons_ne (o c : Char) (os new t : List Char) (h : ¬ c = o) :
    pyReplace (c :: t) (o :: os) new = c :: pyReplace t (o :: os) new := by
  have hb : (c == o) = false := by simp [h]
  simp [pyReplace, replAux, hb]

theorem pyReplace_cons_self (o : Char) (new t : List Char) :
    pyReplace (o :: t) [o] new = new ++ pyReplace t [o] new := by
  simp [pyReplace, replAux, stripPfx]

theorem catMap_append (f : Char → List Char) (a b : List Char) :
    catMap f (a ++ b) = catMap f a ++ catMap f b := by
  induction a with
  | nil => rfl
  | cons c t ih => simp [catMap, ih]

theorem mem_catMap (f : Char → List Char) (s : List Char) (c : Char)
    (h : c ∈ catMap f s) : ∃ a ∈ s, c ∈ f a := by
  induction s with
  | nil => simp [catMap] at h
  | cons a t ih =>
    simp only [catMap, List.mem_append] at h
    rcases h with h | h
    · exact ⟨a, by simp, h⟩
    · obtain ⟨b, hb, hc⟩ := ih h
      exact ⟨b, by simp [hb], hc⟩

theorem pyReplace_single (o : Char) (new : List Char) :
    ∀ (s : List Char), pyReplace s [o] new = catMap (charSub o new) s := by
  have key : ∀ (n : Nat) (s : List Char), s.length ≤ n →
      replAux o [] new n s = catMap (charSub o new) s := by
    intro n
    induction n with
    | zero =>
      intro s hs
      have : s = [] := by cases s <;> simp_all
      subst this; rfl
    | succ n ih =>
      intro s hs
      cases s with
      | nil => rfl
      | cons c t =>
        have ht : t.length ≤ n := by simp at hs; omega
        simp only [replAux, stripPfx, catMap, charSub]
        by_cases hc : c == o
        · simp [hc, ih t ht]
        · simp [hc, ih t ht]
  intro s
  exact key s.length s (Nat.le_refl _)

theorem pyReplace_noOccur (o : Char) (os new : List Char) :
    ∀ (s : List Char), hasSub s (o :: os) = false → pyReplace s (o :: os) new = s := by
  have key : ∀ (n : Nat) (s : List Char), s.length ≤ n → hasSub s (o :: os) = false →
      replAux o os new n s = s := by
    intro n
    induction n with
    | zero =>
      intro s hs _
      have : s = [] := by cases s <;> simp_all
      subst this; rfl
    | succ n ih =>
      intro s hs h
      cases s with
      | nil => rfl
      | cons c t =>
        have ht : t.length ≤ n := by simp at hs; omega
        obtain ⟨hss, hsub⟩ := hasSub_cons_elim c o t os h
        simp only [replAux]
        by_cases hc : c == o
        · have hnone : stripPfx t os = none := by
            simp only [strStarts, hc, Bool.true_and] at hss
            rw [strStarts_eq_isSome] at hss
            cases hsp : stripPfx t os with
            | some r => rw [hsp] at hss; simp at hss
            | none => rfl
          simp [hc, hnone, ih t ht hsub]
        · simp [hc, ih t ht hsub]
  intro s h
  exact key s.length s (Nat.le_refl _) h

theorem splitAux_noOccur (o : Char) (os : List Char) :
    ∀ (n : Nat) (s : List Char), s.length ≤ n → hasSub s (o :: os) = false →
      splitAux o os n s = [s] := by
  intro n
  induction n with
  | zero =>
    intro s hs _
    have : s = [] := by cases s <;> simp_all
    subst this; rfl
  | succ n ih =>
    intro s hs h
    cases s with
    | nil => rfl
    | cons c t =>
      have ht : t.length ≤ n := by simp at hs; omega
      obtain ⟨hss, hsub⟩ := hasSub_cons_elim c o t os h
      simp only [splitAux]
      by_cases hc : c == o
      · have hnone : stripPfx t os = none := by
          simp only [strStarts, hc, Bool.true_and] at hss
          rw [strStarts_eq_isSome] at hss
          cases hsp : stripPfx t os with
          | some r => rw [hsp] at hss; simp at hss
          | none => rfl
        simp [hc, hnone, ih t ht hsub, consHead]
      · simp [hc, ih t ht hsub, consHead]

theorem pySplit_noOccur (o : Char) (os s : List Char) (h : hasSub s (o :: os) = false) :
    pySplit s (o :: os) = [s] :=
  splitAux_noOccur o os s.length s (Nat.le_refl _) h

theorem pySplit_prefix (o : Char) (os r : List Char) (h : hasSub r (o :: os) = false) :
    pySplit ((o :: os) ++ r) (o :: os) = [[], r] := by
  show splitAux o os ((o :: os) ++ r).length ((o :: os) ++ r) = [[], r]
  have hlen : ((o :: os) ++ r).length = (os ++ r).length + 1 := by simp
  rw [hlen]
  simp only [List.cons_append, splitAux, beq_self_eq_true, if_true, List.append_eq,
    stripPfx_append_self]
  rw [splitAux_noOccur o os (os ++ r).length r (by simp) h]

/-! ## Lemmas about strip (trim) -/

theorem dropWhile_append_last (p : Char → Bool) (c : Char) (hc : p c = false) :
    ∀ (l : List Char), ∃ r, List.dropWhile p (l ++ [c]) = r ++ [c] := by
  intro l
  induction l with
  | nil => exact ⟨[], by simp [List.dropWhile, hc]⟩
  | cons a l ih =>
    by_cases ha : p a
    · obtain ⟨r, hr⟩ := ih
      exact ⟨r, by simp [List.dropWhile, ha, hr]⟩
    · exact ⟨a :: l, by simp [List.dropWhile, ha]⟩

theorem trimL_cons_nonspace (c : Char) (t : List Char) (hc : isSpaceC c = false) :
    ∃ r, trimL (c :: t) = c :: r := by
  unfold trimL
  rw [List.dropWhile_cons_of_neg (by simp [hc])]
  rw [show (c :: t).reverse = t.reverse ++ [c] by simp]
  obtain ⟨r, hr⟩ := dropWhile_append_last isSpaceC c hc t.reverse
  rw [hr]
  exact ⟨r.reverse, by simp⟩

theorem trimL_cons_space (t : List Char) : trimL ((' ') :: t) = trimL t := by
  unfold trimL
  rw [List.dropWhile_cons_of_pos (by decide)]

theorem fence_false_hash (t : List Char) : strStarts (trimL (('#') :: t)) fenceP = false := by
  obtain ⟨r, hr⟩ := trimL_cons_nonspace ('#') t (by decide)
  rw [hr]; rfl

/-! ## Lemmas about chunking -/

theorem chunksAux_concat : ∀ (n : Nat) (s : List Char), s.length ≤ n →
    concatAll (chunksAux n s) = s := by
  intro n
  induction n with
  | zero =>
    intro s hs
    have : s = [] := by cases s <;> simp_all
    subst this; rfl
  | succ n ih =>
    intro s hs
    cases s with
    | nil => rfl
    | cons c t =>
      simp only [chunksAux, concatAll]
      rw [ih ((c :: t).drop 180) (by simp at hs ⊢; omega)]
      exact List.take_append_drop 180 (c :: t)

theorem chunks180_concat (s : List Char) : concatAll (chunks180 s) = s :=
  chunksAux_concat s.length s (Nat.le_refl _)

theorem filter_all_true (p : List Char → Bool) :
    ∀ (ls : List (List Char)), (∀ c ∈ ls, p c = true) → ls.filter p = ls := by
  intro ls h
  induction ls with
  | nil => rfl
  | cons a t ih =>
    rw [List.filter_cons_of_pos (h a (by simp))]
    rw [ih (fun c hc => h c (by simp [hc]))]

/-! ## Lemmas about replacement passes -/

theorem applyReplaces_nil : ∀ (rs : List (List Char × List Char)), applyReplaces rs [] = [] := by
  intro rs
  induction rs with
  | nil => rfl
  | cons p rs ih =>
    show applyReplaces rs (pyReplace [] p.1 p.2) = []
    rw [pyReplace_nil, ih]

theorem applyReplaces_cons (p : List Char × List Char) (rs : List (List Char × List Char))
    (s : List Char) : applyReplaces (p :: rs) s = applyReplaces rs (pyReplace s p.1 p.2) := rfl

theorem applyReplaces_append_singles :
    ∀ (rs : List (List Char × List Char)), (∀ p ∈ rs, p.1.length = 1) →
      ∀ (a b : List Char), applyReplaces rs (a ++ b) = applyReplaces rs a ++ applyReplaces rs b := by
  intro rs
  induction rs with
  | nil => intro _ a b; rfl
  | cons p rs ih =>
    intro h a b
    obtain ⟨pat, new⟩ := p
    have hpat : ∃ o, pat = [o] := by
      have := h (pat, new) (by simp)
      cases pat with
      | nil => simp at this
      | cons o os => cases os with
        | nil => exact ⟨o, rfl⟩
        | cons _ _ => simp at this
    obtain ⟨o, ho⟩ := hpat
    subst ho
    rw [applyReplaces_cons, applyReplaces_cons]
    show applyReplaces rs (pyReplace (a ++ b) [o] new) =
      applyReplaces rs (pyReplace a [o] new) ++ applyReplaces rs (pyReplace b [o] new)
    rw [pyReplace_single, pyReplace_single, pyReplace_single, catMap_append]
    exact ih (fun q hq => h q (by simp [hq])) _ _

theorem cleanText_append (a b : List Char) : cleanText (a ++ b) = cleanText a ++ cleanText b :=
  applyReplaces_append_singles cleanPairs (by decide) a b

/-! ## Lemmas about the metadata scans -/

theorem updateMetaHtml_eq (m : Metadata) (l : List Char) :
    updateMetaHtml m l = updOf classifyHtml m l := by
  unfold updateMetaHtml updOf classifyHtml
  split_ifs <;> rfl

theorem updateMetaSimple_eq (m : Metadata) (l : List Char) :
    updateMetaSimple m l = updOf classifySimple m l := by
  unfold updateMetaSimple updOf classifySimple
  split_ifs <;> rfl

theorem readFld_writeFld_same (f : Fld) (v : List Char) (m : Metadata) :
    readFld f (writeFld f v m) = v := by
  cases f <;> rfl

theorem readFld_writeFld_ne (f g : Fld) (h : ¬ f = g) (v : List Char) (m : Metadata) :
    readFld f (writeFld g v m) = readFld f m := by
  cases f <;> cases g <;> first | rfl | exact absurd rfl h

theorem updOf_preserve (cls : List Char → Option (Fld × List Char)) (f : Fld) :
    ∀ (ls : List (List Char)) (m : Metadata),
      (∀ l ∈ ls, ∀ w, ¬ cls l = some (f, w)) →
      readFld f (ls.foldl (updOf cls) m) = readFld f m := by
  intro ls
  induction ls with
  | nil => intro m _; rfl
  | cons l ls ih =>
    intro m h
    rw [List.foldl_cons]
    rw [ih (updOf cls m l) (fun x hx w => h x (by simp [hx]) w)]
    unfold updOf
    cases hc : cls l with
    | none => rfl
    | some p =>
      obtain ⟨g, w⟩ := p
      by_cases hg : f = g
      · subst hg; exact absurd hc (h l (by simp) w)
      · exact readFld_writeFld_ne f g hg w m

theorem updOf_last (cls : List Char → Option (Fld × List Char))
    (pre post : List (List Char)) (l : List Char) (f : Fld) (v : List Char) (m0 : Metadata)
    (hl : cls l = some (f, v)) (hpost : ∀ x ∈ post, ∀ w, ¬ cls x = some (f, w)) :
    readFld f ((pre ++ l :: post).foldl (updOf cls) m0) = v := by
  rw [List.foldl_append, List.foldl_cons]
  rw [updOf_preserve cls f post _ hpost]
  show readFld f (updOf cls (pre.foldl (updOf cls) m0) l) = v
  unfold updOf
  rw [hl]
  exact readFld_writeFld_same f v _

/-! ## The HTML glyph conversion as a character map -/

theorem htmlStrip_cons (c : Char) (t : List Char) (hc : ¬ c = ('🛠')) :
    htmlStripEmojis (c :: t) = glyphSubHtml c ++ htmlStripEmojis t := by
  simp only [htmlStripEmojis, applyReplaces, htmlEmojiPairs, List.foldl]
  by_cases h1 : c = ('🎯')
  · subst h1
    rw [pyReplace_cons_self]
    simp [glyphSubHtml]
  by_cases h2 : c = ('📚')
  · subst h2
    repeat rw [pyReplace_cons_ne _ _ _ _ _ (by decide)]
    rw [pyReplace_cons_self]
    simp [glyphSubHtml]
  by_cases h3 : c = ('🐍')
  · subst h3
    repeat rw [pyReplace_cons_ne _ _ _ _ _ (by decide)]
    rw [pyReplace_cons_self]
    simp [glyphSubHtml]
  by_cases h4 : c = ('🔍')
  · subst h4
    repeat rw [pyReplace_cons_ne _ _ _ _ _ (by decide)]
    rw [pyReplace_cons_self]
    simp [glyphSubHtml]
  by_cases h5 : c = ('📊')
  · subst h5
    repeat rw [pyReplace_cons_ne _ _ _ _ _ (by decide)]
    rw [pyReplace_cons_self]
    simp [glyphSubHtml]
  by_cases h6 : c = ('🔬')
  · subst h6
    repeat rw [pyReplace_cons_ne _ _ _ _ _ (by decide)]
    rw [pyReplace_cons_self]
    simp [glyphSubHtml]
  by_cases h7 : c = ('🔄')
  · subst h7
    repeat rw [pyReplace_cons_ne _ _ _ _ _ (by decide)]
    rw [pyReplace_cons_self]
    simp [glyphSubHtml]
  by_cases h8 : c = ('📝')
  · subst h8
    repeat rw [pyReplace_cons_ne _ _ _ _ _ (by decide)]
    rw [pyReplace_cons_self]
    simp [glyphSubHtml]
  by_cases h9 : c = ('🔗')
  · subst h9
    repeat rw [pyReplace_cons_ne _ _ _ _ _ (by decide)]
    rw [pyReplace_cons_self]
    simp [glyphSubHtml]
  by_cases h10 : c = ('💭')
  · subst h10
    repeat rw [pyReplace_cons_ne _ _ _ _ _ (by decide)]
    rw [pyReplace_cons_self]
    simp [glyphSubHtml]
  by_cases h11 : c = ('✅')
  · subst h11
    repeat rw [pyReplace_cons_ne _ _ _ _ _ (by decide)]
    rw [pyReplace_cons_self]
    simp only [List.cons_append, List.nil_append]
    repeat rw [pyReplace_cons_ne _ _ _ _ _ (by decide)]
    simp [glyphSubHtml]
  by_cases h12 : c = ('❌')
  · subst h12
    repeat rw [pyReplace_cons_ne _ _ _ _ _ (by decide)]
    rw [pyReplace_cons_self]
    simp only [List.cons_append, List.nil_append]
    simp [glyphSubHtml]
  · rw [pyReplace_cons_ne _ _ _ _ _ h1, pyReplace_cons_ne _ _ _ _ _ h2,
      pyReplace_cons_ne _ _ _ _ _ h3, pyReplace_cons_ne _ _ _ _ _ h4,
      pyReplace_cons_ne _ _ _ _ _ h5, pyReplace_cons_ne _ _ _ _ _ hc,
      pyReplace_cons_ne _ _ _ _ _ h6, pyReplace_cons_ne _ _ _ _ _ h7,
      pyReplace_cons_ne _ _ _ _ _ h8, pyReplace_cons_ne _ _ _ _ _ h9,
      pyReplace_cons_ne _ _ _ _ _ h10, pyReplace_cons_ne _ _ _ _ _ h11,
      pyReplace_cons_ne _ _ _ _ _ h12]
    simp [glyphSubHtml, h1, h2, h3, h4, h5, h6, h7, h8, h9, h10, h11, h12]

theorem htmlStrip_catMap : ∀ (l : List Char), (∀ c ∈ l, ¬ c = ('🛠')) →
    htmlStripEmojis l = catMap glyphSubHtml l := by
  intro l
  induction l with
  | nil => intro _; rfl
  | cons c t ih =>
    intro h
    rw [htmlStrip_cons c t (h c (by simp)), catMap]
    rw [ih (fun a ha => h a (by simp [ha]))]

/-! ## Lemmas about the content loop -/

theorem runLoop_cons (st : LoopState) (l : List Char) (ls : List (List Char)) :
    runLoop st (l :: ls) = (stepLine st l).2 ++ runLoop (stepLine st l).1 ls := rfl

theorem stepBody_buffer (st : LoopState) (l : List Char)
    (h2 : st.in_code_block = true)
    (hf : strStarts (trimL (stripEmojiRe l)) fenceP = false) :
    stepBody st l = ({ st with code_buffer := st.code_buffer ++ [stripEmojiRe l] }, []) := by
  simp [stepBody, h2, hf]

theorem stepBody_close (st : LoopState) (l : List Char)
    (h2 : st.in_code_block = true)
    (hf : strStarts (trimL (stripEmojiRe l)) fenceP = true) :
    stepBody st l = ({ st with code_buffer := [], in_code_block := false },
      if st.code_buffer.isEmpty then []
      else [Block.codeBlock (st.code_buffer.map (fun x => x.take 70))]) := by
  simp [stepBody, h2, hf]

theorem stepBody_default (st : LoopState) (l : List Char)
    (h2 : st.in_code_block = false) (h3 : st.in_table = false)
    (hf : strStarts (trimL (stripEmojiRe l)) fenceP = false)
    (hnt : (hasSub (stripEmojiRe l) pipeP && hasSub (stripEmojiRe l) dashP) = false) :
    stepBody st l = (st, lineBlocks (stripEmojiRe l)) := by
  simp [stepBody, h2, h3, hf, hnt]

theorem stepBody_sep (st : LoopState) (l : List Char)
    (h2 : st.in_code_block = false)
    (hf : strStarts (trimL (stripEmojiRe l)) fenceP = false)
    (hp : hasSub (stripEmojiRe l) pipeP = true)
    (hd : hasSub (stripEmojiRe l) dashP = true) :
    stepBody st l = ({ st with in_table := true }, []) := by
  simp [stepBody, h2, hf, hp, hd]

theorem stepBody_row (st : LoopState) (l : List Char)
    (h2 : st.in_code_block = false) (h3 : st.in_table = true)
    (hf : strStarts (trimL (stripEmojiRe l)) fenceP = false)
    (hp : hasSub (stripEmojiRe l) pipeP = true)
    (hd : hasSub (stripEmojiRe l) dashP = false) :
    stepBody st l = ({ st with table_data := st.table_data ++ [stripEmojiRe l] }, []) := by
  simp [stepBody, h2, h3, hf, hp, hd]

theorem stepBody_flush (st : LoopState) (l : List Char)
    (h2 : st.in_code_block = false) (h3 : st.in_table = true)
    (hf : strStarts (trimL (stripEmojiRe l)) fenceP = false)
    (hp : hasSub (stripEmojiRe l) pipeP = false) :
    stepBody st l = ({ st with in_table := false, table_data := [] },
      flushTable st.table_data ++ lineBlocks (stripEmojiRe l)) := by
  simp [stepBody, h2, h3, hf, hp]

theorem stepLine_noskip (st : LoopState) (l : List Char) (h1 : st.skip_header = false) :
    stepLine st l = stepBody st l := by
  simp [stepLine, h1]

theorem flushTable_take (td : List (List Char)) :
    flushTable td = (td.take 5).map rowCellsBlock := by
  cases td with
  | nil => rfl
  | cons a t => simp [flushTable]

/-- Inside an unterminated code block, every remaining line is buffered and
nothing is emitted. -/
theorem codeRun_skip : ∀ (ls : List (List Char)) (st : LoopState),
    st.skip_header = false → st.in_code_block = true →
    (∀ l ∈ ls, strStarts (trimL (stripEmojiRe l)) fenceP = false) →
    runLoop st ls = [] := by
  intro ls
  induction ls with
  | nil => intro st _ _ _; rfl
  | cons l ls ih =>
    intro st h1 h2 h3
    rw [runLoop_cons, stepLine_noskip st l h1,
      stepBody_buffer st l h2 (h3 l (by simp))]
    simp only [List.nil_append]
    exact ih _ (by simp [h1]) (by simp [h2]) (fun x hx => h3 x (by simp [hx]))

/-- Inside a code block that is eventually closed: all lines up to the fence
are buffered (emoji-deleted), and at the fence one code block is emitted with
every buffered line cut to its first 70 characters. -/
theorem codeRun_close : ∀ (ls : List (List Char)) (st : LoopState) (fl : List Char)
    (rest : List (List Char)),
    st.skip_header = false → st.in_code_block = true →
    strStarts (trimL (stripEmojiRe fl)) fenceP = true →
    (∀ l ∈ ls, strStarts (trimL (stripEmojiRe l)) fenceP = false) →
    runLoop st (ls ++ fl :: rest) =
      (if (st.code_buffer ++ ls.map stripEmojiRe).isEmpty then []
       else [Block.codeBlock ((st.code_buffer ++ ls.map stripEmojiRe).map (fun x => x.take 70))]) ++
      runLoop { st with code_buffer := [], in_code_block := false } rest := by
  intro ls
  induction ls with
  | nil =>
    intro st fl rest h1 h2 hf _
    rw [List.nil_append, runLoop_cons, stepLine_noskip st fl h1, stepBody_close st fl h2 hf]
    simp
  | cons l ls ih =>
    intro st fl rest h1 h2 hf h3
    rw [List.cons_append, runLoop_cons, stepLine_noskip st l h1,
      stepBody_buffer st l h2 (h3 l (by simp))]
    rw [List.nil_append]
    rw [ih _ fl rest (by simp [h1]) (by simp [h2]) hf (fun x hx => h3 x (by simp [hx]))]
    simp [List.append_assoc]

/-- While a table is open: pipe rows accumulate, and the first pipe-free line
flushes at most 5 of the accumulated rows and is then classified itself. -/
theorem tableRun : ∀ (rows : List (List Char)) (st : LoopState) (closing : List Char)
    (rest : List (List Char)),
    st.skip_header = false → st.in_code_block = false → st.in_table = true →
    (∀ r ∈ rows, strStarts (trimL (stripEmojiRe r)) fenceP = false ∧
      hasSub (stripEmojiRe r) pipeP = true ∧ hasSub (stripEmojiRe r) dashP = false) →
    strStarts (trimL (stripEmojiRe closing)) fenceP = false →
    hasSub (stripEmojiRe closing) pipeP = false →
    runLoop st (rows ++ closing :: rest) =
      flushTable (st.table_data ++ rows.map stripEmojiRe) ++ lineBlocks (stripEmojiRe closing) ++
      runLoop { st with in_table := false, table_data := [] } rest := by
  intro rows
  induction rows with
  | nil =>
    intro st closing rest h1 h2 h3 _ hcf hcp
    rw [List.nil_append, runLoop_cons, stepLine_noskip st closing h1,
      stepBody_flush st closing h2 h3 hcf hcp]
    simp [List.append_assoc]
  | cons r rows ih =>
    intro st closing rest h1 h2 h3 hr hcf hcp
    obtain ⟨hrf, hrp, hrd⟩ := hr r (by simp)
    rw [List.cons_append, runLoop_cons, stepLine_noskip st r h1,
      stepBody_row st r h2 h3 hrf hrp hrd]
    rw [List.nil_append]
    rw [ih _ closing rest (by simp [h1]) (by simp [h2]) (by simp [h3])
      (fun x hx => hr x (by simp [hx])) hcf hcp]
    simp [List.append_assoc]

/-! ## Lemmas about heading classification -/

theorem hh2_fence_false (l : List Char) (h : strStarts l hh2 = true) :
    strStarts (trimL l) fenceP = false := by
  obtain ⟨r, hr⟩ := strStarts_shape hh2 l h
  subst hr
  exact fence_false_hash (('#') :: ((' ') :: r))

theorem hh3_fence_false (l : List Char) (h : strStarts l hh3 = true) :
    strStarts (trimL l) fenceP = false := by
  obtain ⟨r, hr⟩ := strStarts_shape hh3 l h
  subst hr
  exact fence_false_hash (('#') :: (('#') :: ((' ') :: r)))

theorem hh4_fence_false (l : List Char) (h : strStarts l hh4 = true) :
    strStarts (trimL l) fenceP = false := by
  obtain ⟨r, hr⟩ := strStarts_shape hh4 l h
  subst hr
  exact fence_false_hash (('#') :: (('#') :: (('#') :: ((' ') :: r))))

theorem lineBlocks_hh2 (l : List Char) (h : strStarts l hh2 = true) :
    lineBlocks l = [Block.heading 1 (trimL (l.drop 3))] := by
  simp [lineBlocks, h]

theorem lineBlocks_hh3 (l : List Char) (h : strStarts l hh3 = true) :
    lineBlocks l = [Block.heading 2 (trimL (l.drop 4))] := by
  have h2 : strStarts l hh2 = false := by
    obtain ⟨r, hr⟩ := strStarts_shape hh3 l h
    subst hr; rfl
  simp [lineBlocks, h, h2]

theorem lineBlocks_hh4 (l : List Char) (h : strStarts l hh4 = true) :
    lineBlocks l = [Block.heading 3 (trimL (l.drop 5))] := by
  obtain ⟨r, hr⟩ := strStarts_shape hh4 l h
  have h2 : strStarts l hh2 = false := by subst hr; rfl
  have h3 : strStarts l hh3 = false := by subst hr; rfl
  simp [lineBlocks, h, h2, h3]

theorem paraBlocks_no_heading (l : List Char) (lv : Nat) (t : List Char) :
    ¬ Block.heading lv t ∈ paraBlocks l := by
  unfold paraBlocks
  split_ifs
  · simp
  all_goals dsimp only
  all_goals split_ifs <;> simp

theorem lineBlocks_no_heading (l : List Char) (h2 : strStarts l hh2 = false)
    (h3 : strStarts l hh3 = false) (h4 : strStarts l hh4 = false)
    (lv : Nat) (t : List Char) : ¬ Block.heading lv t ∈ lineBlocks l := by
  simp only [lineBlocks, h2, h3, h4, Bool.false_eq_true, if_false]
  split_ifs
  · simp
  · exact paraBlocks_no_heading l lv t
  · simp

/-! ## Claim C10 -/

/-- Claim C10: in the direct-layout variant, once a code fence has been opened,
if the remaining document contains no closing fence then every line buffered
inside the code block produces no output at all: the loop emits no further
block, the buffer is silently discarded at end of document, and no error is
raised (the model is total). -/
theorem C10_unterminated_fence (ls : List (List Char)) (st : LoopState)
    (h1 : st.skip_header = false) (h2 : st.in_code_block = true)
    (h3 : ∀ l ∈ ls, strStarts (trimL (stripEmojiRe l)) fenceP = false) :
    runLoop st ls = [] :=
  codeRun_skip ls st h1 h2 h3

/-- Witness for C10 at a concrete open-fence state and document tail. -/
theorem C10_witness :
    runLoop (LoopState.mk false true [("print(1)").data] false [])
      [("x = 1").data, ("y = 2").data] = [] :=
  C10_unterminated_fence _ _ rfl rfl (by decide)

/-! ## Claim C2 -/

/-- Claim C2 (amended): the lines buffered between a pair of fences are the
emoji-deleted source lines, and the emitted code block carries each buffered
line cut to its first 70 characters; a buffered line of at most 70 characters
containing no deleted glyph therefore passes through verbatim, a longer one is
truncated. -/
theorem C2_code_lines (ls : List (List Char)) (st : LoopState) (fl : List Char)
    (rest : List (List Char))
    (h1 : st.skip_header = false) (h2 : st.in_code_block = true)
    (hf : strStarts (trimL (stripEmojiRe fl)) fenceP = true)
    (h3 : ∀ l ∈ ls, strStarts (trimL (stripEmojiRe l)) fenceP = false) :
    runLoop st (ls ++ fl :: rest) =
      (if (st.code_buffer ++ ls.map stripEmojiRe).isEmpty then []
       else [Block.codeBlock ((st.code_buffer ++ ls.map stripEmojiRe).map (fun x => x.take 70))]) ++
      runLoop { st with code_buffer := [], in_code_block := false } rest :=
  codeRun_close ls st fl rest h1 h2 hf h3

/-- Witness for C2: an 80-character code line is emitted cut to 70 characters. -/
theorem C2_witness :
    runLoop (LoopState.mk false true [] false []) [List.replicate 80 ('a'), fenceP] =
      [Block.codeBlock [List.replicate 70 ('a')]] := by
  rw [show ([List.replicate 80 ('a'), fenceP] : List (List Char)) =
    [List.replicate 80 ('a')] ++ fenceP :: [] from rfl]
  rw [C2_code_lines [List.replicate 80 ('a')] (LoopState.mk false true [] false [])
    fenceP [] rfl rfl (by decide) (by decide)]
  decide

/-- Claim C2 as stated is false on the code: a code line of 80 characters is
not preserved character-for-character; the emitted code block carries only its
first 70 characters. -/
theorem C2_counterexample :
    codeBlocksOf (runLoop initState demoC2Lines) = [[List.replicate 70 ('a')]] ∧
    ¬ List.replicate 70 ('a') = List.replicate 80 ('a') := by decide

/-! ## Claim C3 -/

/-- Claim C3 (amended): after a separator line (pipe and dash run), the
pipe-containing data rows accumulate and, at the first pipe-free line, only
the first `min(N, 5)` rows are emitted, in original order; each emitted row
carries the stripped interior cells of the row, only the first 3 of them, and
each cell cut to its first 20 characters.  The separator itself is never
emitted, and a data row containing a dash run would be treated as a new
separator (hence the dash-free hypothesis). -/
theorem C3_table_rows (rows : List (List Char)) (st : LoopState) (sep closing : List Char)
    (rest : List (List Char))
    (h1 : st.skip_header = false) (h2 : st.in_code_block = false)
    (h3 : st.in_table = false) (h4 : st.table_data = [])
    (hsf : strStarts (trimL (stripEmojiRe sep)) fenceP = false)
    (hsp : hasSub (stripEmojiRe sep) pipeP = true)
    (hsd : hasSub (stripEmojiRe sep) dashP = true)
    (hr : ∀ r ∈ rows, strStarts (trimL (stripEmojiRe r)) fenceP = false ∧
      hasSub (stripEmojiRe r) pipeP = true ∧ hasSub (stripEmojiRe r) dashP = false)
    (hcf : strStarts (trimL (stripEmojiRe closing)) fenceP = false)
    (hcp : hasSub (stripEmojiRe closing) pipeP = false) :
    runLoop st (sep :: (rows ++ closing :: rest)) =
      ((rows.map stripEmojiRe).take 5).map rowCellsBlock ++
      lineBlocks (stripEmojiRe closing) ++ runLoop st rest := by
  rw [runLoop_cons, stepLine_noskip st sep h1, stepBody_sep st sep h2 hsf hsp hsd]
  rw [List.nil_append]
  rw [tableRun rows _ closing rest (by simp [h1]) (by simp [h2]) (by simp) hr hcf hcp]
  have hst : ({ { st with in_table := true } with in_table := false, table_data := [] } : LoopState) = st := by
    cases st
    simp_all
  rw [hst]
  have htd : ({ st with in_table := true } : LoopState).table_data = [] := by simp [h4]
  rw [htd, List.nil_append, flushTable_take]

/-- Witness for C3 with two data rows. -/
theorem C3_witness :
    runLoop stReady [("|---|").data, ("| a |").data, ("| b |").data, ("fin").data] =
      [Block.tableRow [("a").data], Block.tableRow [("b").data],
        Block.text (("    fin").data)] := by
  rw [show ([("|---|").data, ("| a |").data, ("| b |").data, ("fin").data] : List (List Char)) =
    ("|---|").data :: ([("| a |").data, ("| b |").data] ++ ("fin").data :: []) from rfl]
  rw [C3_table_rows [("| a |").data, ("| b |").data] stReady (("|---|").data)
    (("fin").data) [] rfl rfl rfl rfl (by decide) (by decide) (by decide) (by decide)
    (by decide) (by decide)]
  decide

/-- Claim C3 as stated is false on the code: with 6 data rows only 5 table-row
blocks are emitted (`table_data[:5]`), not 6. -/
theorem C3_counterexample :
    (runLoop initState demoC3Lines).countP isTableRowBlock = 5 ∧ ¬ (5 : Nat) = 6 := by decide

/-! ## Claim C9 -/

/-- Claim C9 (amended): the 180-character chunks of an overlong paragraph
concatenate back to the whole text, but the renderer skips chunks that are
entirely whitespace (`if chunk.strip()`); the concatenation of the emitted
chunks therefore equals the original text exactly when no 180-aligned chunk is
all whitespace; otherwise those chunks are lost. -/
theorem C9_chunk_concat :
    (∀ s : List Char, concatAll (chunks180 s) = s) ∧
    (∀ s : List Char, (∀ c ∈ chunks180 s, ¬ trimL c = []) →
      concatAll ((chunks180 s).filter (fun c => !(trimL c).isEmpty)) = s) ∧
    (∀ l : List Char, hasSub l star2P = false → strStarts l dash1P = true →
      l.length > 200 →
      paraBlocks l = ((chunks180 l).filter (fun c => !(trimL c).isEmpty)).map Block.text) := by
  refine ⟨chunks180_concat, ?_, ?_⟩
  · intro s h
    rw [filter_all_true _ _ (fun c hc => by simp [List.isEmpty_iff, h c hc])]
    exact chunks180_concat s
  · intro l hb hd hlen
    unfold paraBlocks
    rw [if_neg (by simp [hb])]
    dsimp only
    have hcond : (!(strStarts l dash1P) && !(strStarts l star1P) && !(strStarts l gt1P)) = false := by
      simp [hd]
    simp only [hcond, Bool.false_eq_true, if_false]
    rw [if_pos hlen]

set_option maxRecDepth 8192 in
/-- Witness for C9: a 201-character text with no all-whitespace chunk is
reassembled without loss from its emitted chunks. -/
theorem C9_witness :
    concatAll ((chunks180 (List.replicate 201 ('a'))).filter (fun c => !(trimL c).isEmpty)) =
      List.replicate 201 ('a') :=
  C9_chunk_concat.2.1 _ (by decide)

set_option maxRecDepth 8192 in
/-- Claim C9 as stated is false on the code: a 361-character paragraph whose
second 180-character chunk is all spaces loses that chunk; the concatenation
of the emitted chunks is not the original text. -/
theorem C9_counterexample :
    runLoop initState [marker2, demoC9Line] =
      [Block.heading 1 (("Objetivo").data), Block.text (demoC9Line.take 180),
        Block.text [('b')]] ∧
    ¬ (demoC9Line.take 180 ++ [('b')]) = demoC9Line := by decide

/-! ## Claim C4 -/

/-- Claim C4 (amended): inline bold parsing never raises (the model is a total
function); a line with a matched pair parses as claimed, but with an odd
number of delimiters the final unmatched delimiter is not kept as literal
text: the line is split on the delimiter and every odd-indexed non-empty part
is emitted bold, so `a **b` parses to [plain `a `, bold `b`]. -/
theorem C4_bold_fallback :
    inlineSpans (("a **b** c").data) =
      [(false, ("a ").data), (true, ("b").data), (false, (" c").data)] ∧
    inlineSpans demoC4Line = [(false, ("a ").data), (true, ("b").data)] ∧
    (stepLine stReady demoC4Line).2 =
      [Block.spans [(false, ("a ").data), (true, ("b").data)]] := by decide

/-- Claim C4 as stated is false on the code: for the line `a **b` the part
after the unmatched delimiter is emitted bold, not as literal plain text
`**b`. -/
theorem C4_counterexample :
    (stepLine stReady demoC4Line).2 =
      [Block.spans [(false, ("a ").data), (true, ("b").data)]] ∧
    ¬ [(false, ("a ").data), (true, ("b").data)] =
      [(false, ("a ").data), (false, ("**b").data)] := by decide

/-! ## Claim C5 -/

/-- Claim C5 (amended): the two variants treat the glyph list differently.
In the direct-layout variant the `re.sub` character class deletes every listed
glyph, including the check mark and cross: the output is a subsequence of the
line and no listed glyph survives — no bracketed token is produced.  In the
HTML variant, on a line free of the two-character tool glyph, the conversion
is the per-character map sending the check mark to `[Sí]`, the cross to
`[No]`, the other listed glyphs to nothing, and keeping everything else, for
every occurrence in the line. -/
theorem C5_glyphs :
    (∀ l : List Char, (stripEmojiRe l).Sublist l ∧
      ∀ c ∈ stripEmojiRe l, reEmojiChars.contains c = false) ∧
    (∀ l : List Char, (∀ c ∈ l, ¬ c = ('🛠')) →
      htmlStripEmojis l = catMap glyphSubHtml l) := by
  constructor
  · intro l
    constructor
    · exact List.filter_sublist l
    · intro c hc
      have := List.of_mem_filter hc
      simpa using this
  · exact htmlStrip_catMap

/-- Witness for C5 on a line with repeated check and cross glyphs. -/
theorem C5_witness :
    htmlStripEmojis (("a ✅ b ❌ c ✅").data) = catMap glyphSubHtml (("a ✅ b ❌ c ✅").data) ∧
    catMap glyphSubHtml (("a ✅ b ❌ c ✅").data) = ("a [Sí] b [No] c [Sí]").data :=
  ⟨C5_glyphs.2 _ (by decide), by decide⟩

/-- Claim C5 as stated is false on the code: the direct-layout variant deletes
the check mark instead of replacing it with `[Sí]`; only the HTML variant
produces the bracketed token. -/
theorem C5_counterexample :
    stripEmojiRe demoC5Line = ("x  y").data ∧
    htmlStripEmojis demoC5Line = ("x [Sí] y").data ∧
    ¬ ("x  y").data = ("x [Sí] y").data ∧
    (stepLine stReady demoC5Line).2 = [Block.text (("    x  y").data)] := by decide

theorem stepBody_open (st : LoopState) (l : List Char)
    (h2 : st.in_code_block = false)
    (hf : strStarts (trimL (stripEmojiRe l)) fenceP = true) :
    stepBody st l = ({ st with in_code_block := true }, []) := by
  simp [stepBody, h2, hf]

/-! ## Claim C8 -/

/-- Claim C8 (amended): heading remapping shifts `##`/`###`/`####` to levels
1/2/3 and touches no other prefix, in both variants.  In the HTML variant the
heading text is exactly the remainder of the line; in the direct-layout
variant the emitted heading text is the whitespace-trimmed remainder (the
source applies `.strip()`), and a heading line that simultaneously contains a
pipe and a dash run is claimed by table detection instead (hence the `ntab`
hypothesis). -/
theorem C8_heading_remap :
    (∀ l : List Char, strStarts l hh2 = true → remapHeading l = h1pre ++ l.drop 3) ∧
    (∀ l : List Char, strStarts l hh3 = true → remapHeading l = hh2 ++ l.drop 4) ∧
    (∀ l : List Char, strStarts l hh4 = true → remapHeading l = hh3 ++ l.drop 5) ∧
    (∀ l : List Char, strStarts l hh2 = false → strStarts l hh3 = false →
      strStarts l hh4 = false → remapHeading l = l) ∧
    (∀ (st : LoopState) (l : List Char), stOK st → ntab l →
      strStarts (stripEmojiRe l) hh2 = true →
      (stepLine st l).2 = [Block.heading 1 (trimL ((stripEmojiRe l).drop 3))]) ∧
    (∀ (st : LoopState) (l : List Char), stOK st → ntab l →
      strStarts (stripEmojiRe l) hh3 = true →
      (stepLine st l).2 = [Block.heading 2 (trimL ((stripEmojiRe l).drop 4))]) ∧
    (∀ (st : LoopState) (l : List Char), stOK st → ntab l →
      strStarts (stripEmojiRe l) hh4 = true →
      (stepLine st l).2 = [Block.heading 3 (trimL ((stripEmojiRe l).drop 5))]) ∧
    (∀ (st : LoopState) (l : List Char) (lv : Nat) (t : List Char), stOK st →
      strStarts (stripEmojiRe l) hh2 = false → strStarts (stripEmojiRe l) hh3 = false →
      strStarts (stripEmojiRe l) hh4 = false →
      ¬ Block.heading lv t ∈ (stepLine st l).2) := by
  refine ⟨?_, ?_, ?_, ?_, ?_, ?_, ?_, ?_⟩
  · intro l h
    simp [remapHeading, h]
  · intro l h
    have h2 : strStarts l hh2 = false := by
      obtain ⟨r, hr⟩ := strStarts_shape hh3 l h
      subst hr; rfl
    simp [remapHeading, h, h2]
  · intro l h
    obtain ⟨r, hr⟩ := strStarts_shape hh4 l h
    have h2 : strStarts l hh2 = false := by subst hr; rfl
    have h3 : strStarts l hh3 = false := by subst hr; rfl
    simp [remapHeading, h, h2, h3]
  · intro l h2 h3 h4
    simp [remapHeading, h2, h3, h4]
  · intro st l hok hnt hh
    obtain ⟨hs1, hs2, hs3⟩ := hok
    unfold ntab at hnt
    rw [stepLine_noskip st l hs1,
      stepBody_default st l hs2 hs3 (hh2_fence_false _ hh) hnt]
    exact lineBlocks_hh2 _ hh
  · intro st l hok hnt hh
    obtain ⟨hs1, hs2, hs3⟩ := hok
    unfold ntab at hnt
    rw [stepLine_noskip st l hs1,
      stepBody_default st l hs2 hs3 (hh3_fence_false _ hh) hnt]
    exact lineBlocks_hh3 _ hh
  · intro st l hok hnt hh
    obtain ⟨hs1, hs2, hs3⟩ := hok
    unfold ntab at hnt
    rw [stepLine_noskip st l hs1,
      stepBody_default st l hs2 hs3 (hh4_fence_false _ hh) hnt]
    exact lineBlocks_hh4 _ hh
  · intro st l lv t hok h2 h3 h4
    obtain ⟨hs1, hs2, hs3⟩ := hok
    rw [stepLine_noskip st l hs1]
    by_cases hf : strStarts (trimL (stripEmojiRe l)) fenceP = true
    · rw [stepBody_open st l hs2 hf]
      simp
    · by_cases hp : (hasSub (stripEmojiRe l) pipeP && hasSub (stripEmojiRe l) dashP) = true
      · obtain ⟨hp1, hp2⟩ := Bool.and_eq_true_iff.mp hp
        rw [stepBody_sep st l hs2 (by simpa using hf) hp1 hp2]
        simp
      · rw [stepBody_default st l hs2 hs3 (by simpa using hf) (by simpa using hp)]
        exact lineBlocks_no_heading _ h2 h3 h4 lv t

/-- Witness for C8: a level-3 heading line with trailing spaces is emitted at
output level 2 with the trimmed remainder. -/
theorem C8_witness :
    (stepLine stReady (("### Metodo  ").data)).2 =
      [Block.heading 2 (trimL ((stripEmojiRe (("### Metodo  ").data)).drop 4))] ∧
    trimL ((stripEmojiRe (("### Metodo  ").data)).drop 4) = ("Metodo").data :=
  ⟨C8_heading_remap.2.2.2.2.2.1 stReady _ ⟨rfl, rfl, rfl⟩ (by unfold ntab; decide) (by decide), by decide⟩

/-- Claim C8 as stated is false on the code: in the direct-layout variant the
emitted heading text is the trimmed remainder, not the remainder itself — for
`### T  ` the heading text is `T` while the remainder of the line is `T  `. -/
theorem C8_counterexample :
    (stepLine stReady (("### T  ").data)).2 = [Block.heading 2 (("T").data)] ∧
    (("### T  ").data).drop 4 = ("T  ").data ∧
    ¬ ("T").data = ("T  ").data := by decide

/-! ## Claim C1 -/

/-- Claim C1 (amended): metadata extraction is last-match-wins per field: each
matching line overwrites the field, so when a labelled line is followed by no
later line matching the same field, that line's value is the extracted one —
over all lines in the HTML variant, and within the 10-line scan window in the
direct-layout variant. -/
theorem C1_last_match :
    (∀ (pre post : List (List Char)) (l : List Char) (f : Fld) (v : List Char),
      classifyHtml l = some (f, v) →
      (∀ x ∈ post, ∀ w, ¬ classifyHtml x = some (f, w)) →
      readFld f (extractMetaHtml (pre ++ l :: post)) = v) ∧
    (∀ (pre post : List (List Char)) (l : List Char) (f : Fld) (v : List Char),
      (pre ++ l :: post).length ≤ 10 →
      classifySimple l = some (f, v) →
      (∀ x ∈ post, ∀ w, ¬ classifySimple x = some (f, w)) →
      readFld f (extractMetaSimple (pre ++ l :: post)) = v) := by
  constructor
  · intro pre post l f v hl hpost
    unfold extractMetaHtml
    have he : updateMetaHtml = updOf classifyHtml :=
      funext fun m => funext fun x => updateMetaHtml_eq m x
    rw [he]
    exact updOf_last classifyHtml pre post l f v mdefault hl hpost
  · intro pre post l f v hlen hl hpost
    unfold extractMetaSimple
    rw [List.take_of_length_le hlen]
    have he : updateMetaSimple = updOf classifySimple :=
      funext fun m => funext fun x => updateMetaSimple_eq m x
    rw [he]
    exact updOf_last classifySimple pre post l f v mdefault hl hpost

/-- Witness for C1: a single labelled line yields its own value. -/
theorem C1_witness :
    readFld Fld.author (extractMetaHtml [("**Estudiante:** Ana").data]) = ("Ana").data :=
  C1_last_match.1 [] [] (("**Estudiante:** Ana").data) Fld.author (("Ana").data)
    (by decide) (by simp)

set_option maxRecDepth 8192 in
/-- Claim C1 as stated is false on the code: with two author lines the
extracted author is the value of the second (later) line in both variants;
the first match does not win. -/
theorem C1_counterexample :
    (extractMetaHtml [("**Estudiante:** Ana").data, ("**Estudiante:** Beto").data]).author =
      ("Beto").data ∧
    (processDocument demoC1).1.author = ("Beto").data ∧
    ¬ ("Beto").data = ("Ana").data := by decide

/-! ## Claim C6 -/

set_option maxRecDepth 100000 in
/-- Claim C6 (amended): only the direct-layout variant appends the fixed
static reference list: its block sequence ends with the references section for
every input.  The HTML variant appends no reference section: for a
representative document its assembled markdown does not contain the head of
the first bibliographic entry, and neither does the static HTML wrapper. -/
theorem C6_references :
    (∀ content : List Char, ∃ pre, createApaPdfBlocks content = pre ++ refsBlocks) ∧
    hasSub (processMarkdownForApa demoC6) refChomsky = false ∧
    hasSub htmlWrapPre refChomsky = false ∧
    hasSub htmlWrapPost refChomsky = false ∧
    strStarts (referencias.getD 0 []) refChomsky = true := by
  refine ⟨?_, by decide, by decide, by decide, by decide⟩
  intro content
  refine ⟨titleBlocks (processDocument content).1 ++ abstractBlocks ++
    runLoop initState (processDocument content).2, ?_⟩
  simp [createApaPdfBlocks, List.append_assoc]

set_option maxRecDepth 100000 in
/-- Claim C6 as stated is false on the code: the first fixed reference entry
never occurs in the markdown assembled by the HTML variant for a document
that does not itself contain it, so that variant appends no static reference
list. -/
theorem C6_counterexample :
    strStarts (referencias.getD 0 []) refChomsky = true ∧
    hasSub (processMarkdownForApa demoC6) refChomsky = false := by decide

/-! ## Claim C7 -/

set_option maxRecDepth 8192 in
/-- Claim C7 (amended): the two variants do not both accept both spellings.
The direct-layout variant accepts both: `clean_text` rewrites the accented
label to the unaccented one before the scan, so either spelling populates
`student_id` with the (accent-normalised) value.  The HTML variant matches
only the accented label: the accented spelling populates the field, the
unaccented one leaves it empty.  The hypotheses say that the value is
untouched by cleaning and stripping, contains no newline, and that no earlier
or other label of the chain occurs in the line. -/
theorem C7_label_variants (v : List Char)
    (hcv : cleanText v = v) (htv : trimL v = v) (hnl : ∀ c ∈ v, ¬ c = ('\n'))
    (hEstA : hasSub (lblClaveAcc ++ (' ') :: v) lblEst = false)
    (hEstU : hasSub (lblClaveUn ++ (' ') :: v) lblEst = false)
    (hAccU : hasSub (lblClaveUn ++ (' ') :: v) lblClaveAcc = false)
    (hMat : hasSub (lblClaveUn ++ (' ') :: v) lblMateria = false)
    (hFec : hasSub (lblClaveUn ++ (' ') :: v) lblFecha = false)
    (hTailU : hasSub ((' ') :: v) lblClaveUn = false)
    (hTailA : hasSub ((' ') :: v) lblClaveAcc = false) :
    (processDocument (lblClaveAcc ++ (' ') :: v)).1.student_id = v ∧
    (processDocument (lblClaveUn ++ (' ') :: v)).1.student_id = v ∧
    (extractMetaHtml [lblClaveAcc ++ (' ') :: v]).student_id = v ∧
    (extractMetaHtml [lblClaveUn ++ (' ') :: v]).student_id = [] := by
  have hconsA : lblClaveAcc = ('*') :: (("*Clave Única:**").data) := rfl
  have hconsU : lblClaveUn = ('*') :: (("*Clave Unica:**").data) := rfl
  have hT_A : strStarts (lblClaveAcc ++ (' ') :: v) h1pre = false := rfl
  have hT_U : strStarts (lblClaveUn ++ (' ') :: v) h1pre = false := rfl
  have hSubA : hasSub (lblClaveAcc ++ (' ') :: v) lblClaveAcc = true :=
    hasSub_of_append lblClaveAcc ((' ') :: v)
  have hSubU : hasSub (lblClaveUn ++ (' ') :: v) lblClaveUn = true :=
    hasSub_of_append lblClaveUn ((' ') :: v)
  have hTailA2 := hTailA
  rw [hconsA] at hTailA2
  have hsplitA : pySplit (lblClaveAcc ++ (' ') :: v) lblClaveAcc = [[], (' ') :: v] := by
    rw [hconsA]
    exact pySplit_prefix ('*') (("*Clave Única:**").data) ((' ') :: v) hTailA2
  have hTailU2 := hTailU
  rw [hconsU] at hTailU2
  have hsplitU : pySplit (lblClaveUn ++ (' ') :: v) lblClaveUn = [[], (' ') :: v] := by
    rw [hconsU]
    exact pySplit_prefix ('*') (("*Clave Unica:**").data) ((' ') :: v) hTailU2
  have htrim : trimL ((' ') :: v) = v := by rw [trimL_cons_space, htv]
  have eS : (updateMetaSimple mdefault (lblClaveUn ++ (' ') :: v)).student_id = v := by
    unfold updateMetaSimple
    rw [if_neg (by simp [hT_U]), if_neg (by simp [hEstU]), if_pos (by simp [hSubU])]
    simp [hsplitU, htrim]
  have hclean : cleanText (lblClaveAcc ++ (' ') :: v) = lblClaveUn ++ (' ') :: v := by
    rw [show (lblClaveAcc ++ (' ') :: v) = lblClaveAcc ++ ([(' ')] ++ v) from rfl]
    rw [cleanText_append, cleanText_append, hcv]
    rw [show cleanText lblClaveAcc = lblClaveUn from by decide]
    rw [show cleanText [(' ')] = [(' ')] from by decide]
    rfl
  have hcleanU : cleanText (lblClaveUn ++ (' ') :: v) = lblClaveUn ++ (' ') :: v := by
    rw [show (lblClaveUn ++ (' ') :: v) = lblClaveUn ++ ([(' ')] ++ v) from rfl]
    rw [cleanText_append, cleanText_append, hcv]
    rw [show cleanText lblClaveUn = lblClaveUn from by decide]
    rw [show cleanText [(' ')] = [(' ')] from by decide]
  have hlines : pySplit (lblClaveUn ++ (' ') :: v) nlP = [lblClaveUn ++ (' ') :: v] := by
    have hlbl : ∀ c ∈ lblClaveUn, ¬ c = ('\n') := by decide
    have hall : ∀ c ∈ lblClaveUn ++ (' ') :: v, ¬ c = ('\n') := by
      intro c hc
      rcases List.mem_append.mp hc with h | h
      · exact hlbl c h
      · rcases List.mem_cons.mp h with h | h
        · subst h; decide
        · exact hnl c h
    rw [show nlP = ('\n') :: ([] : List Char) from rfl]
    exact pySplit_noOccur ('\n') [] _ (hasSub_false_of_all_ne ('\n') [] _ hall)
  refine ⟨?_, ?_, ?_, ?_⟩
  · unfold processDocument
    dsimp only
    rw [hclean, hlines]
    show (updateMetaSimple mdefault (lblClaveUn ++ (' ') :: v)).student_id = v
    exact eS
  · unfold processDocument
    dsimp only
    rw [hcleanU, hlines]
    show (updateMetaSimple mdefault (lblClaveUn ++ (' ') :: v)).student_id = v
    exact eS
  · show (updateMetaHtml mdefault (lblClaveAcc ++ (' ') :: v)).student_id = v
    unfold updateMetaHtml
    rw [if_neg (by simp [hT_A]), if_neg (by simp [hEstA]), if_pos (by simp [hSubA])]
    simp [hsplitA, htrim]
  · show (updateMetaHtml mdefault (lblClaveUn ++ (' ') :: v)).student_id = []
    unfold updateMetaHtml
    rw [if_neg (by simp [hT_U]), if_neg (by simp [hEstU]), if_neg (by simp [hAccU]),
      if_neg (by simp [hMat]), if_neg (by simp [hFec])]
    rfl

set_option maxRecDepth 8192 in
/-- Witness for C7: value `123` is extracted by the direct-layout variant from
the accented spelling, while the HTML variant leaves the field empty on the
unaccented one. -/
theorem C7_witness :
    (processDocument (lblClaveAcc ++ (' ') :: ("123").data)).1.student_id = ("123").data ∧
    (extractMetaHtml [lblClaveUn ++ (' ') :: ("123").data]).student_id = [] := by
  have h := C7_label_variants (("123").data) (by decide) (by decide) (by decide) (by decide)
    (by decide) (by decide) (by decide) (by decide) (by decide) (by decide)
  exact ⟨h.1, h.2.2.2⟩

/-- Claim C7 as stated is false on the code: the HTML variant does not accept
the unaccented spelling; on `**Clave Unica:** 123` it leaves `student_id`
empty instead of populating it with `123`. -/
theorem C7_counterexample :
    (extractMetaHtml [("**Clave Unica:** 123").data]).student_id = [] ∧
    ¬ ([] : List Char) = ("123").data := by decide
